import Mathlib

/-!
Verification of the grid-reconstruction and diffusion core of the
Parallel2D_HeatTransferSimulation repository.

The embedding follows the Python sources:
  - load_block        from heat_pro_visualization.py lines 9-20 (identical
                      copies in plot_heat.py, visualize_1d.py,
                      visualize_ranks_overlay.py);
  - hstack / vstack   the numpy concatenations used in visualize2.py
                      lines 18-20 and visualize_ranks_overlay.py lines 29-31;
  - step / applyPolicy  the step_heat functions of animate_heat.py
                      lines 30-50, heat_pro_visualization.py lines 64-85 and
                      visualize_ranks_overlay.py lines 58-81, unified over a
                      boundary policy (per-edge Fixed value with thickness,
                      or Free) exactly as the spec's BoundaryPolicy describes
                      the family of source instances;
  - fixCsv            the repair loop of fix_csv.py lines 10-23.

Real arithmetic is modelled over the rationals.  Python float parsing is
abstracted as a parameter (fp : List Char -> Rat); a text line is a list of
characters, and the Python string operations strip, endswith, slicing and
split are translated to list functions below.
-/

namespace HeatSim

/-- A dense 2-D grid of temperatures, dimensions nx x ny, row-major indices
(i = row, j = column), as a total value function together with its extent
(the function model of a numpy array). -/
structure Grid where
  nx : ℕ
  ny : ℕ
  val : ℕ → ℕ → ℚ

/-- One edge of the boundary policy: a Fixed temperature stamped over a band
of the given thickness, or a Free (mirrored, Neumann-like) edge that is not
stamped at all.  Source instances: animate_heat.py uses Fixed with
thickness 1 on all four edges; heat_pro_visualization.py uses thickness 30
bands top and bottom; visualize_ranks_overlay.py leaves the sides Free. -/
inductive EdgeCond where
  | fixed (v : ℚ) (t : ℕ)
  | free
deriving DecidableEq

/-- The per-edge boundary policy, total over all four edges. -/
structure BoundaryPolicy where
  top : EdgeCond
  bottom : EdgeCond
  left : EdgeCond
  right : EdgeCond

/-- Does a low-side edge band (top edge over rows, left edge over columns)
cover index idx: the source stamps the slice [0:t]. -/
def coversLow (e : EdgeCond) (idx : ℕ) : Bool :=
  match e with
  | .fixed _ t => decide (idx < t)
  | .free => false

/-- Does a high-side edge band (bottom edge over rows, right edge over
columns) cover index idx: the source stamps the slice [-t:], i.e. indices
from n - t on. -/
def coversHigh (e : EdgeCond) (n idx : ℕ) : Bool :=
  match e with
  | .fixed _ t => decide (n - t ≤ idx)
  | .free => false

/-- Value after stamping a low-side edge: the fixed value inside the band,
the previous value outside it. -/
def edgeLowVal (e : EdgeCond) (idx : ℕ) (fb : ℚ) : ℚ :=
  match e with
  | .fixed v t => if idx < t then v else fb
  | .free => fb

/-- Value after stamping a high-side edge. -/
def edgeHighVal (e : EdgeCond) (n idx : ℕ) (fb : ℚ) : ℚ :=
  match e with
  | .fixed v t => if n - t ≤ idx then v else fb
  | .free => fb

/-- Stamp the top edge: new[0:t, :] = v (animate_heat.py line 45,
heat_pro_visualization.py line 80). -/
def stampTop (e : EdgeCond) (g : Grid) : Grid :=
  match e with
  | .fixed v t => ⟨g.nx, g.ny, fun i j => if i < t then v else g.val i j⟩
  | .free => g

/-- Stamp the bottom edge: new[-t:, :] = v (animate_heat.py line 46,
heat_pro_visualization.py line 81). -/
def stampBottom (e : EdgeCond) (g : Grid) : Grid :=
  match e with
  | .fixed v t => ⟨g.nx, g.ny, fun i j => if g.nx - t ≤ i then v else g.val i j⟩
  | .free => g

/-- Stamp the left edge: new[:, 0:t] = v (animate_heat.py line 47 with
t = 1). -/
def stampLeft (e : EdgeCond) (g : Grid) : Grid :=
  match e with
  | .fixed v t => ⟨g.nx, g.ny, fun i j => if j < t then v else g.val i j⟩
  | .free => g

/-- Stamp the right edge: new[:, -t:] = v (animate_heat.py line 48 with
t = 1). -/
def stampRight (e : EdgeCond) (g : Grid) : Grid :=
  match e with
  | .fixed v t => ⟨g.nx, g.ny, fun i j => if g.ny - t ≤ j then v else g.val i j⟩
  | .free => g

/-- Boundary enforcement: the four stamps in the source's call order top,
bottom, left, right (animate_heat.py lines 45-48, plot_heat.py lines 76-81),
so a later stamp overrides an earlier one where bands overlap. -/
def applyPolicy (p : BoundaryPolicy) (g : Grid) : Grid :=
  stampRight p.right (stampLeft p.left (stampBottom p.bottom (stampTop p.top g)))

/-- The value the four stamps leave at cell (i, j) of an nx x ny grid whose
pre-stamp value there is base: the chain mirrors applyPolicy, innermost
first. -/
def boundaryVal (p : BoundaryPolicy) (nx ny i j : ℕ) (base : ℚ) : ℚ :=
  edgeHighVal p.right ny j
    (edgeLowVal p.left j
      (edgeHighVal p.bottom nx i
        (edgeLowVal p.top i base)))

/-- The value a cell covered by at least one Fixed band holds after
enforcement: the fixed value of the last edge in the order top, bottom,
left, right whose band covers the cell (the fallback 0 is never reached for
a covered cell). -/
def lastFixedVal (p : BoundaryPolicy) (nx ny i j : ℕ) : ℚ :=
  boundaryVal p nx ny i j 0

/-- Whether any of the four stamped bands covers cell (i, j) of an
nx x ny grid. -/
def coveredByFixed (p : BoundaryPolicy) (nx ny i j : ℕ) : Bool :=
  coversLow p.top i || coversHigh p.bottom nx i ||
    coversLow p.left j || coversHigh p.right ny j

/-- The clamped 5-point Laplacian read from the previous grid, with
edge-replicated neighbor lookups: np.pad(u, 1, mode="edge") of
visualize_ranks_overlay.py lines 65-73.  At interior cells the clamping is
invisible and this is the plain 5-point stencil of animate_heat.py
lines 33-42. -/
def laplacian (g : Grid) (i j : ℕ) : ℚ :=
  g.val (min (i + 1) (g.nx - 1)) j + g.val (i - 1) j +
    g.val i (min (j + 1) (g.ny - 1)) + g.val i (j - 1) - 4 * g.val i j

/-- The stencil phase of one step: new = u + dt * lap
(visualize_ranks_overlay.py line 75; the coefficient written dt in the
sources plays the role of the product dt * diffusivity of the spec's
stepper signature). -/
def diffuse (dt : ℚ) (g : Grid) : Grid :=
  ⟨g.nx, g.ny, fun i j => g.val i j + dt * laplacian g i j⟩

/-- One DiffusionStepper.step: the stencil phase followed by full boundary
re-enforcement, as in every step_heat of the sources (interior update, then
re-apply boundary conditions). -/
def step (p : BoundaryPolicy) (dt : ℚ) (g : Grid) : Grid :=
  applyPolicy p (diffuse dt g)

/-- The stability diagnostic.  Modelled from the spec: no stability check
exists anywhere in the repository's visible source; section 4.4 specifies a
diagnostic check of the explicit-scheme bound dt * diffusivity * 4 <= 1
surfacing a StabilityError, exposed for the driver and not enforced by the
stepper itself. -/
inductive StabilityError where
  | unstable
deriving DecidableEq

/-- Modelled from the spec: the exposed diagnostic of section 4.4 - ok
when dt * diffusivity * 4 <= 1, a StabilityError otherwise. -/
def stabilityCheck (dt diffusivity : ℚ) : Except StabilityError Unit :=
  if dt * diffusivity * 4 ≤ 1 then .ok () else .error .unstable

/-- Python str.strip of a line: drop whitespace from both ends
(heat_pro_visualization.py line 13). -/
def pstrip (l : List Char) : List Char :=
  ((l.dropWhile Char.isWhitespace).reverse.dropWhile Char.isWhitespace).reverse

/-- Python str.split on the comma delimiter: "" yields one empty field,
and k delimiters yield k + 1 fields (heat_pro_visualization.py line 18). -/
def splitComma : List Char → List (List Char)
  | [] => [[]]
  | c :: rest =>
      if c = ',' then [] :: splitComma rest
      else
        match splitComma rest with
        | [] => [[c]]
        | r :: rs => (c :: r) :: rs

/-- The loop body state of load_block (heat_pro_visualization.py
lines 10-19): walk the lines, keeping the list of rows accumulated so far;
strip each line, skip it when blank, drop one trailing comma, split on
commas, drop empty fields, parse each remaining field with fp and append
the row. -/
def loadBlockGo (fp : List Char → ℚ) : List (List Char) → List (List ℚ) → List (List ℚ)
  | [], rows => rows
  | line :: rest, rows =>
      let l := pstrip line
      if l = [] then loadBlockGo fp rest rows
      else
        let l2 := if l.getLast? = some ',' then l.dropLast else l
        let parts := (splitComma l2).filter (fun p => p ≠ [])
        loadBlockGo fp rest (rows ++ [parts.map fp])

/-- load_block of heat_pro_visualization.py lines 9-20 (duplicated in
plot_heat.py, visualize_1d.py, visualize_ranks_overlay.py), starting from
the empty list of rows. -/
def load_block (fp : List Char → ℚ) (lines : List (List Char)) : List (List ℚ) :=
  loadBlockGo fp lines []

/-- The per-line contract of section 4.1: a line is trimmed; a blank line
yields no row; one trailing delimiter is stripped; empty fields are
dropped after splitting; every remaining field is parsed. -/
def processLine (fp : List Char → ℚ) (line : List Char) : Option (List ℚ) :=
  let l := pstrip line
  if l = [] then none
  else
    let l2 := if l.getLast? = some ',' then l.dropLast else l
    some (((splitComma l2).filter (fun p => p ≠ [])).map fp)

/-- The ShapeError of the spec's error taxonomy (section 7). -/
inductive ShapeError where
  | shape
deriving DecidableEq

/-- Is the parsed list of rows rectangular: every row as long as the first
one. -/
def rectangularB (rows : List (List ℚ)) : Bool :=
  rows.all (fun r => r.length == (rows.headD []).length)

/-- Modelled from the spec: the BlockParser of section 4.1.  Its
rectangularity check and ShapeError are the design hardening of
sections 4.1 and 9, present in no source file; the row construction
underneath is the source's load_block unchanged. -/
def parseBlock (fp : List Char → ℚ) (lines : List (List Char)) :
    Except ShapeError (List (List ℚ)) :=
  let rows := load_block fp lines
  if rectangularB rows then .ok rows else .error .shape

/-- One field under np.genfromtxt with filling_values = 0.0
(fix_csv.py line 13): a blank field becomes 0.0, any other field is parsed
with fp. -/
def parseField (fp : List Char → ℚ) (s : List Char) : ℚ :=
  if pstrip s = [] then 0 else fp s

/-- One line under np.genfromtxt with delimiter "," (fix_csv.py line 13):
split on every comma and parse each field, keeping empty fields as 0.0. -/
def genRow (fp : List Char → ℚ) (l : List Char) : List ℚ :=
  (splitComma l).map (parseField fp)

/-- np.genfromtxt over the whole file (fix_csv.py line 13): blank lines are
skipped, every other line becomes a row. -/
def genFromTxt (fp : List Char → ℚ) (lines : List (List Char)) : List (List ℚ) :=
  (lines.filter (fun l => pstrip l ≠ [])).map (genRow fp)

/-- The repair step of fix_csv.py lines 13-17: parse the file and, when the
array has exactly 101 columns, keep only the first 100 of each row
(arr[:, :100]); otherwise leave the array unchanged. -/
def fixCsv (fp : List Char → ℚ) (lines : List (List Char)) : List (List ℚ) :=
  let arr := genFromTxt fp lines
  if (arr.headD []).length = 101 then arr.map (fun r => r.take 100) else arr

/-- The all-zero grid (np.zeros). -/
def zeros (n m : ℕ) : Grid := ⟨n, m, fun _ _ => 0⟩

/-- A constant-filled grid. -/
def constGrid (n m : ℕ) (v : ℚ) : Grid := ⟨n, m, fun _ _ => v⟩

/-- The empty grid, base case of the mesh folds. -/
def emptyGrid : Grid := zeros 0 0

/-- np.hstack of two blocks (visualize2.py line 18): same rows, columns of
the first block followed by columns of the second. -/
def hstack (a b : Grid) : Grid :=
  ⟨a.nx, a.ny + b.ny, fun i j => if j < a.ny then a.val i j else b.val i (j - a.ny)⟩

/-- np.vstack of two blocks (visualize2.py line 20, visualize_1d.py
line 34): same columns, rows of the first block followed by rows of the
second. -/
def vstack (a b : Grid) : Grid :=
  ⟨a.nx + b.nx, a.ny, fun i j => if i < a.nx then a.val i j else b.val (i - a.nx) j⟩

/-- One mesh row: the row's blocks concatenated along the column axis in
col-index order (np.hstack over the row, visualize2.py lines 18-19). -/
def meshRow : List Grid → Grid
  | [] => emptyGrid
  | b :: bs => bs.foldl hstack b

/-- The Tiles assembler: form each mesh row by hstack in col-index order,
then concatenate the mesh rows by vstack in row-index order
(visualize2.py lines 18-20, visualize_ranks_overlay.py lines 29-31). -/
def assembleTiles (mesh : List (List Grid)) : Grid :=
  match mesh.map meshRow with
  | [] => emptyGrid
  | r :: rs => rs.foldl vstack r

/-- A field parser that ignores its input, used to instantiate the
abstracted float parser on concrete witnesses. -/
def fp0 : List Char → ℚ := fun _ => 0

/-- The four-edge policy of animate_heat.py: hot top and bottom, cold left
and right, all of thickness 1. -/
def hotColdPolicy : BoundaryPolicy :=
  ⟨.fixed 100 1, .fixed 100 1, .fixed 0 1, .fixed 0 1⟩

/-- A policy whose only Fixed edge is a top band of thickness 2. -/
def bandPolicy : BoundaryPolicy := ⟨.fixed 5 2, .free, .free, .free⟩

/-- All four edges Free. -/
def freePolicy : BoundaryPolicy := ⟨.free, .free, .free, .free⟩

/-- Fixed top and Fixed left of different values, the other edges Free. -/
def topLeftPolicy : BoundaryPolicy := ⟨.fixed 100 1, .free, .fixed 0 1, .free⟩

/-- Fixed top and Fixed right of different values, the other edges Free. -/
def topRightPolicy : BoundaryPolicy := ⟨.fixed 100 1, .free, .free, .fixed 7 1⟩

lemma edgeLowVal_hit {e : EdgeCond} {idx : ℕ} (h : coversLow e idx = true) (b b' : ℚ) :
    edgeLowVal e idx b = edgeLowVal e idx b' := by
  cases e with
  | free => simp [coversLow] at h
  | fixed v t =>
      simp only [coversLow, decide_eq_true_eq] at h
      simp [edgeLowVal, h]

lemma edgeLowVal_miss {e : EdgeCond} {idx : ℕ} (h : coversLow e idx = false) (b : ℚ) :
    edgeLowVal e idx b = b := by
  cases e with
  | free => rfl
  | fixed v t =>
      simp only [coversLow, decide_eq_false_iff_not] at h
      simp [edgeLowVal, h]

lemma edgeHighVal_hit {e : EdgeCond} {n idx : ℕ} (h : coversHigh e n idx = true) (b b' : ℚ) :
    edgeHighVal e n idx b = edgeHighVal e n idx b' := by
  cases e with
  | free => simp [coversHigh] at h
  | fixed v t =>
      simp only [coversHigh, decide_eq_true_eq] at h
      simp [edgeHighVal, h]

lemma edgeHighVal_miss {e : EdgeCond} {n idx : ℕ} (h : coversHigh e n idx = false) (b : ℚ) :
    edgeHighVal e n idx b = b := by
  cases e with
  | free => rfl
  | fixed v t =>
      simp only [coversHigh, decide_eq_false_iff_not] at h
      simp [edgeHighVal, h]

lemma edgeLowVal_fixed_hit {v : ℚ} {t idx : ℕ} (h : idx < t) (b : ℚ) :
    edgeLowVal (.fixed v t) idx b = v := by
  simp [edgeLowVal, h]

lemma edgeHighVal_fixed_hit {v : ℚ} {t n idx : ℕ} (h : n - t ≤ idx) (b : ℚ) :
    edgeHighVal (.fixed v t) n idx b = v := by
  simp [edgeHighVal, h]

lemma applyPolicy_nx (p : BoundaryPolicy) (g : Grid) : (applyPolicy p g).nx = g.nx := by
  obtain ⟨t, b, l, r⟩ := p
  cases t <;> cases b <;> cases l <;> cases r <;> rfl

lemma applyPolicy_ny (p : BoundaryPolicy) (g : Grid) : (applyPolicy p g).ny = g.ny := by
  obtain ⟨t, b, l, r⟩ := p
  cases t <;> cases b <;> cases l <;> cases r <;> rfl

lemma applyPolicy_val (p : BoundaryPolicy) (g : Grid) (i j : ℕ) :
    (applyPolicy p g).val i j = boundaryVal p g.nx g.ny i j (g.val i j) := by
  obtain ⟨t, b, l, r⟩ := p
  cases t <;> cases b <;> cases l <;> cases r <;> rfl

lemma boundaryVal_covered {p : BoundaryPolicy} {nx ny i j : ℕ}
    (h : coveredByFixed p nx ny i j = true) (b b' : ℚ) :
    boundaryVal p nx ny i j b = boundaryVal p nx ny i j b' := by
  unfold boundaryVal
  cases hR : coversHigh p.right ny j with
  | true => exact edgeHighVal_hit hR _ _
  | false =>
      rw [edgeHighVal_miss hR, edgeHighVal_miss hR]
      cases hL : coversLow p.left j with
      | true => exact edgeLowVal_hit hL _ _
      | false =>
          rw [edgeLowVal_miss hL, edgeLowVal_miss hL]
          cases hB : coversHigh p.bottom nx i with
          | true => exact edgeHighVal_hit hB _ _
          | false =>
              rw [edgeHighVal_miss hB, edgeHighVal_miss hB]
              cases hT : coversLow p.top i with
              | true => exact edgeLowVal_hit hT _ _
              | false => simp [coveredByFixed, hR, hL, hB, hT] at h

lemma boundaryVal_uncovered {p : BoundaryPolicy} {nx ny i j : ℕ}
    (h : coveredByFixed p nx ny i j = false) (b : ℚ) :
    boundaryVal p nx ny i j b = b := by
  simp only [coveredByFixed, Bool.or_eq_false_iff] at h
  obtain ⟨⟨⟨hT, hB⟩, hL⟩, hR⟩ := h
  unfold boundaryVal
  rw [edgeHighVal_miss hR, edgeLowVal_miss hL, edgeHighVal_miss hB, edgeLowVal_miss hT]

lemma step_nx (p : BoundaryPolicy) (dt : ℚ) (g : Grid) : (step p dt g).nx = g.nx := by
  rw [step, applyPolicy_nx]; rfl

lemma step_ny (p : BoundaryPolicy) (dt : ℚ) (g : Grid) : (step p dt g).ny = g.ny := by
  rw [step, applyPolicy_ny]; rfl

lemma iterate_step_nx (p : BoundaryPolicy) (dt : ℚ) (g : Grid) (n : ℕ) :
    ((step p dt)^[n] g).nx = g.nx := by
  induction n with
  | zero => rfl
  | succ m ih => rw [Function.iterate_succ_apply', step_nx, ih]

lemma iterate_step_ny (p : BoundaryPolicy) (dt : ℚ) (g : Grid) (n : ℕ) :
    ((step p dt)^[n] g).ny = g.ny := by
  induction n with
  | zero => rfl
  | succ m ih => rw [Function.iterate_succ_apply', step_ny, ih]

lemma dropWhile_ws_eq_self (l : List Char) (h : ∀ c ∈ l, c.isWhitespace = false) :
    l.dropWhile Char.isWhitespace = l := by
  cases l with
  | nil => rfl
  | cons a as =>
      rw [List.dropWhile_cons, if_neg]
      simp [h a (List.mem_cons_self a as)]

lemma pstrip_eq_self (l : List Char) (h : ∀ c ∈ l, c.isWhitespace = false) :
    pstrip l = l := by
  unfold pstrip
  rw [dropWhile_ws_eq_self l h,
    dropWhile_ws_eq_self l.reverse (fun c hc => h c (List.mem_reverse.mp hc)),
    List.reverse_reverse]

lemma splitComma_cons (c : Char) (rest : List Char) :
    splitComma (c :: rest) =
      if c = ',' then [] :: splitComma rest
      else
        match splitComma rest with
        | [] => [[c]]
        | r :: rs => (c :: r) :: rs := rfl

lemma splitComma_no_comma (l : List Char) (h : ∀ c ∈ l, ¬ c = ',') :
    splitComma l = [l] := by
  induction l with
  | nil => rfl
  | cons c rest ih =>
      have hc := h c (List.mem_cons_self c rest)
      have ih2 := ih (fun x hx => h x (List.mem_cons_of_mem c hx))
      unfold splitComma
      rw [if_neg hc, ih2]

lemma splitComma_append (a b : List Char) (ha : ∀ c ∈ a, ¬ c = ',') :
    splitComma (a ++ ',' :: b) = a :: splitComma b := by
  induction a with
  | nil =>
      show splitComma (',' :: b) = [] :: splitComma b
      rw [splitComma_cons, if_pos rfl]
  | cons x xs ih =>
      have hx := ha x (List.mem_cons_self x xs)
      have ih2 := ih (fun c hc => ha c (List.mem_cons_of_mem x hc))
      show splitComma (x :: (xs ++ ',' :: b)) = (x :: xs) :: splitComma b
      rw [splitComma_cons, if_neg hx, ih2]

lemma splitComma_replicate (m : ℕ) :
    splitComma (List.replicate m ',') = List.replicate (m + 1) [] := by
  induction m with
  | zero => rfl
  | succ k ih =>
      show splitComma (',' :: List.replicate k ',') = _
      unfold splitComma
      rw [if_pos rfl, ih]
      rfl

lemma loadBlockGo_spec (fp : List Char → ℚ) (lines : List (List Char))
    (rows : List (List ℚ)) :
    loadBlockGo fp lines rows = rows ++ lines.filterMap (processLine fp) := by
  induction lines generalizing rows with
  | nil => simp [loadBlockGo]
  | cons line rest ih =>
      simp only [loadBlockGo]
      by_cases hb : pstrip line = []
      · rw [if_pos hb, ih]
        simp [processLine, hb]
      · rw [if_neg hb, ih]
        simp [processLine, hb]

lemma load_block_filterMap (fp : List Char → ℚ) (lines : List (List Char)) :
    load_block fp lines = lines.filterMap (processLine fp) := by
  rw [load_block, loadBlockGo_spec, List.nil_append]

lemma processLine_comma_only (fp : List Char → ℚ) (n : ℕ) (hn : 0 < n) :
    processLine fp (List.replicate n ',') = some [] := by
  obtain ⟨m, rfl⟩ : ∃ m, n = m + 1 := ⟨n - 1, by omega⟩
  have hnw : ∀ c ∈ List.replicate (m + 1) ',', c.isWhitespace = false := by
    intro c hc
    rw [List.eq_of_mem_replicate hc]
    decide
  simp only [processLine, pstrip_eq_self _ hnw]
  rw [if_neg (by simp)]
  rw [List.replicate_succ', List.getLast?_concat, if_pos rfl, List.dropLast_concat,
    splitComma_replicate]
  simp

lemma grid_eq (a b : Grid) (h1 : a.nx = b.nx) (h2 : a.ny = b.ny)
    (h3 : ∀ i j, a.val i j = b.val i j) : a = b := by
  cases a
  cases b
  simp only [Grid.mk.injEq]
  exact ⟨h1, h2, funext fun i => funext fun j => h3 i j⟩

lemma diffuse_nx (dt : ℚ) (g : Grid) : (diffuse dt g).nx = g.nx := rfl

lemma diffuse_ny (dt : ℚ) (g : Grid) : (diffuse dt g).ny = g.ny := rfl

/-- C1, counterexample to the claim as stated: on a 4 x 4 zero grid under a
policy whose top edge is Fixed value 5 with thickness 2, the cell (1, 1) is
interior (1 <= 1 and 1 + 1 < 4 in both axes), yet one step does not produce
the five-point stencil value there: the full boundary re-application stamps
the cell to 5 while the stencil formula gives 0. -/
theorem interior_stencil_cex :
    1 ≤ 1 ∧ 1 + 1 < (zeros 4 4).nx ∧ 1 + 1 < (zeros 4 4).ny ∧
      ¬ ((step bandPolicy (1 / 10 * 1) (zeros 4 4)).val 1 1 =
        (zeros 4 4).val 1 1 + 1 / 10 * 1 *
          ((zeros 4 4).val 2 1 + (zeros 4 4).val 0 1 + (zeros 4 4).val 1 2 +
            (zeros 4 4).val 1 0 - 4 * (zeros 4 4).val 1 1)) := by
  refine ⟨le_refl 1, by decide, by decide, ?_⟩
  norm_num [step, applyPolicy, bandPolicy, stampTop, stampBottom, stampLeft, stampRight,
    diffuse, laplacian, zeros]

/-- C1 (amended): for every grid, every policy, and every interior cell
(i, j) with 1 <= i < NX - 1 and 1 <= j < NY - 1 that is not covered by any
Fixed edge band (in particular, every interior cell whenever each Fixed
edge has thickness at most 1), one step produces
grid[i, j] + dt * diffusivity * (grid[i+1, j] + grid[i-1, j] + grid[i, j+1]
+ grid[i, j-1] - 4 * grid[i, j]), every neighbor read from the previous
step's grid. -/
theorem interior_stencil_amended (p : BoundaryPolicy) (dt diffusivity : ℚ) (g : Grid)
    (i j : ℕ) (hi1 : 1 ≤ i) (hi2 : i + 1 < g.nx) (_hj1 : 1 ≤ j) (hj2 : j + 1 < g.ny)
    (hcov : coveredByFixed p g.nx g.ny i j = false) :
    (step p (dt * diffusivity) g).val i j =
      g.val i j + dt * diffusivity *
        (g.val (i + 1) j + g.val (i - 1) j + g.val i (j + 1) + g.val i (j - 1) -
          4 * g.val i j) := by
  have hmin1 : min (i + 1) (g.nx - 1) = i + 1 := Nat.min_eq_left (by omega)
  have hmin2 : min (j + 1) (g.ny - 1) = j + 1 := Nat.min_eq_left (by omega)
  rw [step, applyPolicy_val]
  show boundaryVal p g.nx g.ny i j ((diffuse (dt * diffusivity) g).val i j) = _
  rw [boundaryVal_uncovered hcov]
  show g.val i j + dt * diffusivity * laplacian g i j = _
  rw [laplacian, hmin1, hmin2]

/-- C1 amended, instantiated: a free-boundary 3 x 3 constant grid at the
interior cell (1, 1). -/
theorem interior_stencil_amended_witness :
    1 ≤ 1 ∧ 1 + 1 < (constGrid 3 3 1).nx ∧ 1 + 1 < (constGrid 3 3 1).ny ∧
      coveredByFixed freePolicy (constGrid 3 3 1).nx (constGrid 3 3 1).ny 1 1 = false ∧
      (step freePolicy (1 / 2 * 1) (constGrid 3 3 1)).val 1 1 =
        (constGrid 3 3 1).val 1 1 + 1 / 2 * 1 *
          ((constGrid 3 3 1).val 2 1 + (constGrid 3 3 1).val 0 1 +
            (constGrid 3 3 1).val 1 2 + (constGrid 3 3 1).val 1 0 -
            4 * (constGrid 3 3 1).val 1 1) :=
  ⟨le_refl 1, by decide, by decide, by decide,
    interior_stencil_amended freePolicy (1 / 2) 1 (constGrid 3 3 1) 1 1
      (le_refl 1) (by decide) (le_refl 1) (by decide) (by decide)⟩

/-- C2, counterexample to the claim as stated: under animate_heat.py's own
policy (top and bottom Fixed 100, left and right Fixed 0, thickness 1), the
corner (0, 0) belongs to the Fixed top edge, yet immediately after one step
on a 3 x 3 zero grid it equals 0, not the top edge's fixed value 100,
because the left stamp is applied after the top stamp. -/
theorem fixed_edges_cex :
    coversLow hotColdPolicy.top 0 = true ∧
      ((step hotColdPolicy (1 / 5))^[1] (zeros 3 3)).val 0 0 = 0 ∧
      ¬ (((step hotColdPolicy (1 / 5))^[1] (zeros 3 3)).val 0 0 = 100) := by
  refine ⟨by decide, ?_, ?_⟩
  · norm_num [Function.iterate_one, step, applyPolicy, hotColdPolicy, stampTop,
      stampBottom, stampLeft, stampRight, diffuse, laplacian, zeros]
  · norm_num [Function.iterate_one, step, applyPolicy, hotColdPolicy, stampTop,
      stampBottom, stampLeft, stampRight, diffuse, laplacian, zeros]

/-- C2 (amended): for every grid, every policy, and every n >= 1,
immediately after the n-th consecutive step every cell covered by some
Fixed edge band equals the fixed value of the last edge in the enforcement
order top, bottom, left, right whose band covers it - in particular that
edge's own fixed value whenever a single Fixed edge (or several sharing one
value) covers the cell - regardless of what the stencil computed there. -/
theorem fixed_edges_after_steps (p : BoundaryPolicy) (dt : ℚ) (g : Grid) (n i j : ℕ)
    (hn : 1 ≤ n) (hcov : coveredByFixed p g.nx g.ny i j = true) :
    ((step p dt)^[n] g).val i j = lastFixedVal p g.nx g.ny i j := by
  obtain ⟨m, rfl⟩ : ∃ m, n = m + 1 := ⟨n - 1, by omega⟩
  rw [Function.iterate_succ_apply']
  rw [step, applyPolicy_val, diffuse_nx, diffuse_ny, iterate_step_nx, iterate_step_ny]
  exact boundaryVal_covered hcov _ 0

/-- C2 amended, instantiated: the top-edge cell (0, 1) of a 3 x 3 zero grid
under animate_heat.py's policy after one step. -/
theorem fixed_edges_after_steps_witness :
    1 ≤ 1 ∧
      coveredByFixed hotColdPolicy (zeros 3 3).nx (zeros 3 3).ny 0 1 = true ∧
      ((step hotColdPolicy (1 / 5))^[1] (zeros 3 3)).val 0 1 =
        lastFixedVal hotColdPolicy (zeros 3 3).nx (zeros 3 3).ny 0 1 :=
  ⟨le_refl 1, by decide,
    fixed_edges_after_steps hotColdPolicy (1 / 5) (zeros 3 3) 1 0 1
      (le_refl 1) (by decide)⟩

/-- C3: the diagnostic stability check errors for every dt, diffusivity
with dt * diffusivity * 4 = 1.05 and succeeds for every pair with
dt * diffusivity * 4 = 0.95, while the stepper itself runs regardless of
the unstable coefficient, returning a grid of the input's dimensions. -/
theorem stability_check_behavior (dt1 d1 dt2 d2 : ℚ) (p : BoundaryPolicy) (g : Grid)
    (h1 : dt1 * d1 * 4 = 105 / 100) (h2 : dt2 * d2 * 4 = 95 / 100) :
    stabilityCheck dt1 d1 = .error .unstable ∧
      stabilityCheck dt2 d2 = .ok () ∧
      (step p (dt1 * d1) g).nx = g.nx ∧ (step p (dt1 * d1) g).ny = g.ny := by
  refine ⟨?_, ?_, step_nx p (dt1 * d1) g, step_ny p (dt1 * d1) g⟩
  · unfold stabilityCheck
    rw [if_neg]
    rw [h1]
    norm_num
  · unfold stabilityCheck
    rw [if_pos]
    rw [h2]
    norm_num

/-- C3, instantiated: dt = 21/80 with diffusivity 1 gives
dt * diffusivity * 4 = 1.05 and an error; dt = 19/80 gives 0.95 and
success. -/
theorem stability_check_behavior_witness :
    (21 / 80 : ℚ) * 1 * 4 = 105 / 100 ∧ (19 / 80 : ℚ) * 1 * 4 = 95 / 100 ∧
      stabilityCheck (21 / 80) 1 = .error .unstable ∧
      stabilityCheck (19 / 80) 1 = .ok () ∧
      (step freePolicy ((21 : ℚ) / 80 * 1) (zeros 3 3)).nx = (zeros 3 3).nx ∧
      (step freePolicy ((21 : ℚ) / 80 * 1) (zeros 3 3)).ny = (zeros 3 3).ny :=
  ⟨by norm_num, by norm_num,
    (stability_check_behavior (21 / 80) 1 (19 / 80) 1 freePolicy (zeros 3 3)
        (by norm_num) (by norm_num)).1,
    (stability_check_behavior (21 / 80) 1 (19 / 80) 1 freePolicy (zeros 3 3)
        (by norm_num) (by norm_num)).2.1,
    (stability_check_behavior (21 / 80) 1 (19 / 80) 1 freePolicy (zeros 3 3)
        (by norm_num) (by norm_num)).2.2.1,
    (stability_check_behavior (21 / 80) 1 (19 / 80) 1 freePolicy (zeros 3 3)
        (by norm_num) (by norm_num)).2.2.2⟩

/-- C7: enforcement applies the edges in the order top, bottom, left,
right, so a corner under overlapping Fixed edges holds the last-applied
edge's value: with Fixed top and Fixed left the corner (0, 0) holds the
left value (left wins against top), and with a Fixed right edge the corner
(0, NY - 1) holds the right value (right is applied last). -/
theorem corner_tie_break (p q : BoundaryPolicy) (gA gB : Grid) (vt vl vr : ℚ)
    (t1 t2 t3 : ℕ)
    (_hptop : p.top = .fixed vt t1) (_ht1 : 0 < t1)
    (hpleft : p.left = .fixed vl t2) (ht2 : 0 < t2)
    (hpright : coversHigh p.right gA.ny 0 = false)
    (hqright : q.right = .fixed vr t3) (ht3 : 0 < t3) (hny : 0 < gB.ny) :
    (applyPolicy p gA).val 0 0 = vl ∧ (applyPolicy q gB).val 0 (gB.ny - 1) = vr := by
  constructor
  · rw [applyPolicy_val]
    unfold boundaryVal
    rw [edgeHighVal_miss hpright, hpleft, edgeLowVal_fixed_hit ht2]
  · rw [applyPolicy_val]
    unfold boundaryVal
    rw [hqright, edgeHighVal_fixed_hit (by omega)]

/-- C7, instantiated: Fixed top 100 with Fixed left 0 leaves corner (0, 0)
at 0, and Fixed right 7 leaves corner (0, 2) of a 3 x 3 grid at 7. -/
theorem corner_tie_break_witness :
    topLeftPolicy.top = .fixed 100 1 ∧ topLeftPolicy.left = .fixed 0 1 ∧
      topRightPolicy.right = .fixed 7 1 ∧
      (applyPolicy topLeftPolicy (zeros 3 3)).val 0 0 = 0 ∧
      (applyPolicy topRightPolicy (zeros 3 3)).val 0 ((zeros 3 3).ny - 1) = 7 :=
  ⟨by decide, by decide, by decide,
    (corner_tie_break topLeftPolicy topRightPolicy (zeros 3 3) (zeros 3 3)
        100 0 7 1 1 1 (by decide) (by decide) (by decide) (by decide)
        (by decide) (by decide) (by decide) (by decide)).1,
    (corner_tie_break topLeftPolicy topRightPolicy (zeros 3 3) (zeros 3 3)
        100 0 7 1 1 1 (by decide) (by decide) (by decide) (by decide)
        (by decide) (by decide) (by decide) (by decide)).2⟩

/-- C4: whenever the parsed rows of a line-oriented input do not all share
one length, the block parser fails with a ShapeError instead of returning
the non-rectangular row list (for example a row of 9 fields among rows of
10). -/
theorem ragged_rows_shape_error (fp : List Char → ℚ) (lines : List (List Char))
    (r1 r2 : List ℚ) (h1 : r1 ∈ load_block fp lines) (h2 : r2 ∈ load_block fp lines)
    (hne : r1.length ≠ r2.length) :
    parseBlock fp lines = .error .shape := by
  simp only [parseBlock]
  rw [if_neg]
  intro hrect
  rw [rectangularB, List.all_eq_true] at hrect
  have e1 := hrect r1 h1
  have e2 := hrect r2 h2
  simp only [beq_iff_eq] at e1 e2
  exact hne (e1.trans e2.symm)

/-- C4, instantiated: a two-field row followed by a one-field row. -/
theorem ragged_rows_shape_error_witness :
    ([(0 : ℚ), 0] ∈ load_block fp0 [['1', ',', '2'], ['3']]) ∧
      ([(0 : ℚ)] ∈ load_block fp0 [['1', ',', '2'], ['3']]) ∧
      parseBlock fp0 [['1', ',', '2'], ['3']] = .error .shape :=
  ⟨by decide, by decide,
    ragged_rows_shape_error fp0 [['1', ',', '2'], ['3']] [0, 0] [0]
      (by decide) (by decide) (by decide)⟩

/-- C5: load_block equals the per-line pipeline processLine mapped over the
input - each line is trimmed, a blank line is skipped entirely, one
trailing delimiter is stripped before splitting, empty fields are dropped
after splitting (never parsed as zero), and every remaining field is
parsed - and on comma-free non-blank fields the pipeline produces exactly
the parsed fields: a trailing comma adds no field, and consecutive commas
contribute none. -/
theorem line_handling (fp : List Char → ℚ) (lines : List (List Char))
    (f1 f2 : List Char) (h1 : f1 ≠ []) (h2 : f2 ≠ [])
    (hc1 : ∀ c ∈ f1, c.isWhitespace = false ∧ ¬ c = ',')
    (hc2 : ∀ c ∈ f2, c.isWhitespace = false ∧ ¬ c = ',') :
    load_block fp lines = lines.filterMap (processLine fp) ∧
      processLine fp (f1 ++ ',' :: (f2 ++ [','])) = some [fp f1, fp f2] ∧
      processLine fp (f1 ++ ',' :: ',' :: f2) = some [fp f1, fp f2] := by
  refine ⟨load_block_filterMap fp lines, ?_, ?_⟩
  · have hnw : ∀ c ∈ f1 ++ ',' :: (f2 ++ [',']), c.isWhitespace = false := by
      intro c hc
      simp only [List.mem_append, List.mem_cons, List.mem_singleton,
        List.not_mem_nil, or_false] at hc
      rcases hc with h | h | h | h
      · exact (hc1 c h).1
      · rw [h]; decide
      · exact (hc2 c h).1
      · rw [h]; decide
    simp only [processLine, pstrip_eq_self _ hnw]
    rw [if_neg (by simp)]
    rw [show f1 ++ ',' :: (f2 ++ [',']) = (f1 ++ ',' :: f2) ++ [','] by simp]
    rw [List.getLast?_concat, if_pos rfl, List.dropLast_concat]
    rw [splitComma_append f1 f2 (fun c hc => (hc1 c hc).2)]
    rw [splitComma_no_comma f2 (fun c hc => (hc2 c hc).2)]
    simp [List.filter_cons, h1, h2]
  · have hnw : ∀ c ∈ f1 ++ ',' :: ',' :: f2, c.isWhitespace = false := by
      intro c hc
      simp only [List.mem_append, List.mem_cons] at hc
      rcases hc with h | h | h | h
      · exact (hc1 c h).1
      · rw [h]; decide
      · rw [h]; decide
      · exact (hc2 c h).1
    obtain ⟨z, hz⟩ : ∃ z, f2.getLast? = some z :=
      ⟨f2.getLast h2, List.getLast?_eq_getLast f2 h2⟩
    have hzm : z ∈ f2 := List.mem_of_mem_getLast? (Option.mem_def.mpr hz)
    have hgl : (f1 ++ ',' :: ',' :: f2).getLast? = some z := by
      rw [show f1 ++ ',' :: ',' :: f2 = (f1 ++ [',', ',']) ++ f2 by simp]
      rw [List.getLast?_append_of_ne_nil _ h2]
      exact hz
    simp only [processLine, pstrip_eq_self _ hnw]
    rw [if_neg (by simp)]
    rw [hgl, if_neg (fun hh => (hc2 z hzm).2 (Option.some.inj hh))]
    rw [splitComma_append f1 (',' :: f2) (fun c hc => (hc1 c hc).2)]
    rw [splitComma_cons, if_pos rfl]
    rw [splitComma_no_comma f2 (fun c hc => (hc2 c hc).2)]
    simp [List.filter_cons, h1, h2]

/-- C5, instantiated: the one-character fields 1 and 2. -/
theorem line_handling_witness :
    (['1'] : List Char) ≠ [] ∧ (['2'] : List Char) ≠ [] ∧
      (∀ c ∈ (['1'] : List Char), c.isWhitespace = false ∧ ¬ c = ',') ∧
      (∀ c ∈ (['2'] : List Char), c.isWhitespace = false ∧ ¬ c = ',') ∧
      (load_block fp0 [['1']] = [['1']].filterMap (processLine fp0) ∧
        processLine fp0 (['1'] ++ ',' :: (['2'] ++ [','])) = some [fp0 ['1'], fp0 ['2']] ∧
        processLine fp0 (['1'] ++ ',' :: ',' :: ['2']) = some [fp0 ['1'], fp0 ['2']]) :=
  ⟨by decide, by decide, by decide, by decide,
    line_handling fp0 [['1']] ['1'] ['2'] (by decide) (by decide) (by decide) (by decide)⟩

/-- C6: the Tiles assembler concatenates each mesh row's blocks along the
column axis in col-index order and the mesh rows along the row axis in
row-index order, and in particular two 3 x 4 blocks at placements (0, 0)
and (0, 1) filled with 1 and 2 assemble into a 3 x 8 grid whose left half
is all 1 and right half all 2. -/
theorem tiles_assembly (A B : Grid) (r c c2 : ℕ) (a b : ℚ) (i j : ℕ) :
    ((assembleTiles [[A, B]]).nx = A.nx ∧
      (assembleTiles [[A, B]]).ny = A.ny + B.ny ∧
      (assembleTiles [[A, B]]).val i j =
        if j < A.ny then A.val i j else B.val i (j - A.ny)) ∧
    ((assembleTiles [[A], [B]]).nx = A.nx + B.nx ∧
      (assembleTiles [[A], [B]]).ny = A.ny ∧
      (assembleTiles [[A], [B]]).val i j =
        if i < A.nx then A.val i j else B.val (i - A.nx) j) ∧
    ((assembleTiles [[constGrid r c a, constGrid r c2 b]]).nx = r ∧
      (assembleTiles [[constGrid r c a, constGrid r c2 b]]).ny = c + c2 ∧
      (assembleTiles [[constGrid r c a, constGrid r c2 b]]).val i j =
        if j < c then a else b) ∧
    (assembleTiles [[constGrid 3 4 1, constGrid 3 4 2]]).nx = 3 ∧
    (assembleTiles [[constGrid 3 4 1, constGrid 3 4 2]]).ny = 8 ∧
    (assembleTiles [[constGrid 3 4 1, constGrid 3 4 2]]).val i j =
      if j < 4 then 1 else 2 :=
  ⟨⟨rfl, rfl, rfl⟩, ⟨rfl, rfl, rfl⟩, ⟨rfl, rfl, rfl⟩, rfl, rfl, rfl⟩

/-- C9: the CSV repair step parses each line treating blank fields as 0.0
and removes exactly the last column if and only if the parsed rectangular
array has exactly 101 columns; at every other width every row is written
back unchanged (row r of the output is the first 100 entries of row r when
the width is 101, and row r itself otherwise). -/
theorem fix_csv_spec (fp : List Char → ℚ) (lines : List (List Char)) (w : ℕ)
    (hw : ∀ r ∈ genFromTxt fp lines, r.length = w)
    (hne : genFromTxt fp lines ≠ []) :
    (∀ s, pstrip s = [] → parseField fp s = 0) ∧
      ∀ i : ℕ, (fixCsv fp lines)[i]? =
        ((genFromTxt fp lines)[i]?).map
          (fun r => r.take (if w = 101 then 100 else w)) := by
  have hhead : (genFromTxt fp lines).headD [] ∈ genFromTxt fp lines := by
    cases hg : genFromTxt fp lines with
    | nil => exact absurd hg hne
    | cons r rs => simp
  have hwhead : ((genFromTxt fp lines).headD []).length = w := hw _ hhead
  constructor
  · intro s hs
    unfold parseField
    rw [if_pos hs]
  · intro i
    simp only [fixCsv]
    by_cases h101 : w = 101
    · rw [if_pos (by rw [hwhead, h101])]
      rw [List.getElem?_map]
      simp [h101]
    · rw [if_neg (by rw [hwhead]; exact h101)]
      cases hg : (genFromTxt fp lines)[i]? with
      | none => simp
      | some r =>
          have hrl : r.length = w := hw r (List.getElem?_mem hg)
          simp only [Option.map_some', if_neg h101]
          rw [← hrl, List.take_length]

/-- C9, instantiated: a 2 x 2 file whose second line ends in a comma and a
blank, exercising the blank-field-to-zero path at width 2. -/
theorem fix_csv_spec_witness :
    (∀ r ∈ genFromTxt fp0 [['1', ',', '2'], ['3', ',', ' ']], r.length = 2) ∧
      genFromTxt fp0 [['1', ',', '2'], ['3', ',', ' ']] ≠ [] ∧
      ((∀ s, pstrip s = [] → parseField fp0 s = 0) ∧
        ∀ i : ℕ, (fixCsv fp0 [['1', ',', '2'], ['3', ',', ' ']])[i]? =
          ((genFromTxt fp0 [['1', ',', '2'], ['3', ',', ' ']])[i]?).map
            (fun r => r.take (if 2 = 101 then 100 else 2))) :=
  ⟨by decide, by decide,
    fix_csv_spec fp0 [['1', ',', '2'], ['3', ',', ' ']] 2 (by decide) (by decide)⟩

/-- C10: a non-blank line made up only of comma delimiters is not skipped:
it contributes exactly one zero-length row to load_block's result (so the
returned rows are not a rectangular numeric array whenever any other row is
non-empty), while a line is skipped exactly when it is whitespace-blank. -/
theorem comma_only_line (fp : List Char → ℚ) (pre post : List (List Char)) (n : ℕ)
    (hn : 0 < n) :
    load_block fp (pre ++ List.replicate n ',' :: post) =
      load_block fp pre ++ [[]] ++ load_block fp post ∧
      ∀ l, processLine fp l = none ↔ pstrip l = [] := by
  constructor
  · rw [load_block_filterMap, load_block_filterMap, load_block_filterMap,
      List.filterMap_append]
    simp [List.filterMap_cons, processLine_comma_only fp n hn]
  · intro l
    by_cases hb : pstrip l = [] <;> simp [processLine, hb]

/-- C10, instantiated: the line of two commas between two ordinary
lines. -/
theorem comma_only_line_witness :
    0 < 2 ∧
      (load_block fp0 ([['1']] ++ List.replicate 2 ',' :: [['2']]) =
        load_block fp0 [['1']] ++ [[]] ++ load_block fp0 [['2']] ∧
        ∀ l, processLine fp0 l = none ↔ pstrip l = []) :=
  ⟨by decide, comma_only_line fp0 [['1']] [['2']] 2 (by decide)⟩

/-- C8: boundary enforcement is idempotent - applying it twice in
succession yields exactly the same grid as applying it once, for every grid
and every total policy. -/
theorem apply_idempotent (p : BoundaryPolicy) (g : Grid) :
    applyPolicy p (applyPolicy p g) = applyPolicy p g := by
  apply grid_eq
  · rw [applyPolicy_nx]
  · rw [applyPolicy_ny]
  · intro i j
    rw [applyPolicy_val p (applyPolicy p g), applyPolicy_nx, applyPolicy_ny,
      applyPolicy_val p g]
    cases hcov : coveredByFixed p g.nx g.ny i j with
    | true => exact boundaryVal_covered hcov _ _
    | false => exact boundaryVal_uncovered hcov _

end HeatSim
